import Mathlib

/-!
Verification of `0x02-redis_basic/exercise.py`: a shallow embedding of the
typed cache (`Cache.store` / `Cache.get` / `Cache.get_str` / `Cache.get_int`),
the instrumentation decorators (`count_calls`, `call_history`), the `replay`
renderer, and the page-cache functions (`count_access`, `cache_page`,
`get_page`).

The underlying key-value store (redis) is an external collaborator; it is
modelled by the operations the module uses (`get`, `set`, `setex`, `incr`,
`rpush`, `lrange`, `flushdb`) over string keys, byte-string/list values and
per-key expiry, following the store contract of the specification (integers
unbounded, `get`/`lrange` of an absent key yield empty).

Python byte strings are modelled as lists of `Nat`; text is Lean `String`
(Unicode scalar values, matching Python strings that can be UTF-8 encoded);
UTF-8 encoding/decoding is implemented concretely below.
-/

namespace RedisBasic

/-- Python/redis byte strings: a sequence of byte values. -/
abbrev Bytes := List Nat

/-- UTF-8 encoding of a single Unicode scalar value (code point). -/
def utf8EncodeCp (n : Nat) : List Nat :=
  if n < 0x80 then [n]
  else if n < 0x800 then [0xC0 + n / 64, 0x80 + n % 64]
  else if n < 0x10000 then [0xE0 + n / 4096, 0x80 + n / 64 % 64, 0x80 + n % 64]
  else [0xF0 + n / 262144, 0x80 + n / 4096 % 64, 0x80 + n / 64 % 64, 0x80 + n % 64]

/-- Is `b` a UTF-8 continuation byte (`0x80..0xBF`)? -/
def IsCont (b : Nat) : Prop := 0x80 ≤ b ∧ b < 0xC0

instance (b : Nat) : Decidable (IsCont b) := by
  unfold IsCont
  infer_instance

/-- Decode one UTF-8 sequence starting at byte `b0` with remaining input `r`:
the decoded code point and the unconsumed bytes. Rejects stray continuation
bytes, overlong forms, surrogates and values above `0x10FFFF` (as Python's
strict `bytes.decode("utf-8")` does). -/
def utf8Step (b0 : Nat) (r : List Nat) : Option (Nat × List Nat) :=
  if b0 < 0x80 then some (b0, r)
  else if b0 < 0xC2 then none
  else if b0 < 0xE0 then
    match r with
    | b1 :: r1 =>
      if IsCont b1 then some ((b0 - 0xC0) * 64 + (b1 - 0x80), r1) else none
    | [] => none
  else if b0 < 0xF0 then
    match r with
    | b1 :: b2 :: r2 =>
      let n := (b0 - 0xE0) * 4096 + (b1 - 0x80) * 64 + (b2 - 0x80)
      if IsCont b1 ∧ IsCont b2 ∧ 0x800 ≤ n ∧ ¬(0xD800 ≤ n ∧ n < 0xE000) then
        some (n, r2)
      else none
    | _ => none
  else if b0 < 0xF5 then
    match r with
    | b1 :: b2 :: b3 :: r3 =>
      let n := (b0 - 0xF0) * 262144 + (b1 - 0x80) * 4096 + (b2 - 0x80) * 64 + (b3 - 0x80)
      if IsCont b1 ∧ IsCont b2 ∧ IsCont b3 ∧ 0x10000 ≤ n ∧ n < 0x110000 then
        some (n, r3)
      else none
    | _ => none
  else none

/-- Fuel-indexed UTF-8 decoding loop; `fuel ≥` input length always suffices
since every step consumes at least one byte. -/
def utf8DecodeAux : Nat → List Nat → Option (List Nat)
  | _, [] => some []
  | 0, _ :: _ => none
  | fuel + 1, b0 :: r =>
    (utf8Step b0 r).bind (fun pr => (utf8DecodeAux fuel pr.2).map (fun t => pr.1 :: t))

/-- Strict UTF-8 decoding of a byte sequence into code points. -/
def utf8DecodeCps (bs : List Nat) : Option (List Nat) :=
  utf8DecodeAux bs.length bs

/-- UTF-8 encoding of a list of code points. -/
def utf8EncodeCps (cps : List Nat) : List Nat :=
  (cps.map utf8EncodeCp).flatten

/-- UTF-8 encoding of a string (Python `str.encode("utf-8")`). -/
def utf8Encode (s : String) : Bytes :=
  utf8EncodeCps (s.data.map Char.toNat)

/-- UTF-8 decoding of a byte string (Python `bytes.decode("utf-8")`);
`none` models a raised `UnicodeDecodeError`. -/
def utf8Decode (bs : Bytes) : Option String :=
  (utf8DecodeCps bs).map (fun cps => String.mk (cps.map Char.ofNat))

set_option maxRecDepth 4096 in
theorem utf8Step_length {b0 cp : Nat} {r rest : List Nat}
    (h : utf8Step b0 r = some (cp, rest)) : rest.length ≤ r.length := by
  unfold utf8Step at h
  repeat' split at h
  all_goals try cases h
  all_goals simp_all
  all_goals omega

theorem utf8EncodeCp_length_pos (n : Nat) : 1 ≤ (utf8EncodeCp n).length := by
  unfold utf8EncodeCp
  split
  · simp
  · split
    · simp
    · split <;> simp

theorem utf8Step_encodeCp (n : Nat) (h : n.isValidChar) (r : List Nat) :
    ∃ b0 tail, utf8EncodeCp n ++ r = b0 :: tail ∧ utf8Step b0 tail = some (n, r) := by
  have hv : n < 0xd800 ∨ (0xdfff < n ∧ n < 0x110000) := h
  by_cases h1 : n < 0x80
  · refine ⟨n, r, by simp [utf8EncodeCp, h1], ?_⟩
    unfold utf8Step
    rw [if_pos h1]
  · by_cases h2 : n < 0x800
    · refine ⟨0xC0 + n / 64, (0x80 + n % 64) :: r, by simp [utf8EncodeCp, h1, h2], ?_⟩
      unfold utf8Step
      rw [if_neg (by omega), if_neg (by omega), if_pos (by omega)]
      show (if IsCont (0x80 + n % 64) then
          some ((0xC0 + n / 64 - 0xC0) * 64 + (0x80 + n % 64 - 0x80), r) else none) = some (n, r)
      rw [if_pos (by unfold IsCont; omega)]
      have harith : (0xC0 + n / 64 - 0xC0) * 64 + (0x80 + n % 64 - 0x80) = n := by omega
      rw [harith]
    · by_cases h3 : n < 0x10000
      · refine ⟨0xE0 + n / 4096, (0x80 + n / 64 % 64) :: (0x80 + n % 64) :: r,
          by simp [utf8EncodeCp, h1, h2, h3], ?_⟩
        unfold utf8Step
        rw [if_neg (by omega), if_neg (by omega), if_neg (by omega), if_pos (by omega)]
        show (if IsCont (0x80 + n / 64 % 64) ∧ IsCont (0x80 + n % 64) ∧
            0x800 ≤ (0xE0 + n / 4096 - 0xE0) * 4096 + (0x80 + n / 64 % 64 - 0x80) * 64 +
              (0x80 + n % 64 - 0x80) ∧
            ¬(0xD800 ≤ (0xE0 + n / 4096 - 0xE0) * 4096 + (0x80 + n / 64 % 64 - 0x80) * 64 +
              (0x80 + n % 64 - 0x80) ∧
              (0xE0 + n / 4096 - 0xE0) * 4096 + (0x80 + n / 64 % 64 - 0x80) * 64 +
              (0x80 + n % 64 - 0x80) < 0xE000) then
          some ((0xE0 + n / 4096 - 0xE0) * 4096 + (0x80 + n / 64 % 64 - 0x80) * 64 +
            (0x80 + n % 64 - 0x80), r) else none) = some (n, r)
        have harith : (0xE0 + n / 4096 - 0xE0) * 4096 + (0x80 + n / 64 % 64 - 0x80) * 64 +
            (0x80 + n % 64 - 0x80) = n := by omega
        rw [harith]
        rw [if_pos (by unfold IsCont; omega)]
      · refine ⟨0xF0 + n / 262144,
          (0x80 + n / 4096 % 64) :: (0x80 + n / 64 % 64) :: (0x80 + n % 64) :: r,
          by simp [utf8EncodeCp, h1, h2, h3], ?_⟩
        unfold utf8Step
        rw [if_neg (by omega), if_neg (by omega), if_neg (by omega), if_neg (by omega),
          if_pos (by omega)]
        show (if IsCont (0x80 + n / 4096 % 64) ∧ IsCont (0x80 + n / 64 % 64) ∧
            IsCont (0x80 + n % 64) ∧
            0x10000 ≤ (0xF0 + n / 262144 - 0xF0) * 262144 + (0x80 + n / 4096 % 64 - 0x80) * 4096 +
              (0x80 + n / 64 % 64 - 0x80) * 64 + (0x80 + n % 64 - 0x80) ∧
            (0xF0 + n / 262144 - 0xF0) * 262144 + (0x80 + n / 4096 % 64 - 0x80) * 4096 +
              (0x80 + n / 64 % 64 - 0x80) * 64 + (0x80 + n % 64 - 0x80) < 0x110000 then
          some ((0xF0 + n / 262144 - 0xF0) * 262144 + (0x80 + n / 4096 % 64 - 0x80) * 4096 +
            (0x80 + n / 64 % 64 - 0x80) * 64 + (0x80 + n % 64 - 0x80), r) else none) = some (n, r)
        have harith : (0xF0 + n / 262144 - 0xF0) * 262144 + (0x80 + n / 4096 % 64 - 0x80) * 4096 +
            (0x80 + n / 64 % 64 - 0x80) * 64 + (0x80 + n % 64 - 0x80) = n := by omega
        rw [harith]
        rw [if_pos (by unfold IsCont; omega)]

theorem utf8DecodeAux_nil (fuel : Nat) : utf8DecodeAux fuel [] = some [] := by
  cases fuel <;> rfl

theorem utf8DecodeAux_mono :
    ∀ (f1 f2 : Nat) (l : List Nat), l.length ≤ f1 → l.length ≤ f2 →
      utf8DecodeAux f1 l = utf8DecodeAux f2 l := by
  intro f1
  induction f1 with
  | zero =>
    intro f2 l h1 _
    cases l with
    | nil => cases f2 <;> rfl
    | cons b r => simp at h1
  | succ f ih =>
    intro f2 l h1 h2
    cases l with
    | nil => cases f2 <;> rfl
    | cons b0 r =>
      cases f2 with
      | zero => simp at h2
      | succ f2' =>
        simp only [utf8DecodeAux]
        cases hs : utf8Step b0 r with
        | none => rfl
        | some pr =>
          obtain ⟨cp, rest⟩ := pr
          have hlen := utf8Step_length hs
          simp only [List.length_cons] at h1 h2
          simp only [Option.some_bind]
          rw [ih f2' rest (by omega) (by omega)]

theorem utf8DecodeAux_encode :
    ∀ (cps : List Nat) (rest : List Nat) (fuel : Nat),
      (∀ n ∈ cps, n.isValidChar) → (utf8EncodeCps cps ++ rest).length ≤ fuel →
      utf8DecodeAux fuel (utf8EncodeCps cps ++ rest) =
        (utf8DecodeAux fuel rest).map (fun t => cps ++ t) := by
  intro cps
  induction cps with
  | nil =>
    intro rest fuel _ _
    simp only [utf8EncodeCps, List.map_nil, List.flatten_nil, List.nil_append]
    cases hd : utf8DecodeAux fuel rest <;> simp
  | cons c cs ih =>
    intro rest fuel hvalid hfuel
    have hc : c.isValidChar := hvalid c (by simp)
    have hcs : ∀ n ∈ cs, n.isValidChar := fun n hn => hvalid n (by simp [hn])
    have hsplit : utf8EncodeCps (c :: cs) ++ rest =
        utf8EncodeCp c ++ (utf8EncodeCps cs ++ rest) := by
      simp [utf8EncodeCps]
    obtain ⟨b0, tail, heq, hstep⟩ := utf8Step_encodeCp c hc (utf8EncodeCps cs ++ rest)
    rw [hsplit, heq]
    have hlen : (b0 :: tail).length ≤ fuel := by
      rw [← heq, ← hsplit]
      exact hfuel
    cases fuel with
    | zero => simp at hlen
    | succ f =>
      simp only [utf8DecodeAux, hstep, Option.some_bind]
      have htail2 : (utf8EncodeCps cs ++ rest).length ≤ f := by
        have hml : (utf8EncodeCp c ++ (utf8EncodeCps cs ++ rest)).length =
            (b0 :: tail).length := by rw [heq]
        have hpos := utf8EncodeCp_length_pos c
        simp only [List.length_append, List.length_cons] at hml hlen ⊢
        omega
      rw [utf8DecodeAux_mono f (f + 1) _ htail2 (by omega)]
      rw [ih rest (f + 1) hcs (by omega)]
      cases utf8DecodeAux (f + 1) rest <;> simp

theorem utf8DecodeCps_encodeCps (cps : List Nat) (h : ∀ n ∈ cps, n.isValidChar) :
    utf8DecodeCps (utf8EncodeCps cps) = some cps := by
  have hmain := utf8DecodeAux_encode cps [] (utf8EncodeCps cps ++ []).length h (Nat.le_refl _)
  simp only [List.append_nil] at hmain
  rw [utf8DecodeCps, hmain, utf8DecodeAux_nil]
  simp

/-- UTF-8 decoding is a left inverse of UTF-8 encoding. -/
theorem utf8Decode_utf8Encode (s : String) : utf8Decode (utf8Encode s) = some s := by
  have hvalid : ∀ n ∈ s.data.map Char.toNat, n.isValidChar := by
    intro n hn
    rcases List.mem_map.1 hn with ⟨c, _, rfl⟩
    exact c.valid
  rw [utf8Decode, utf8Encode, utf8DecodeCps_encodeCps _ hvalid]
  simp only [Option.map_some']
  congr 1
  rw [List.map_map]
  have hcomp : (Char.ofNat ∘ Char.toNat) = (id : Char → Char) := by
    funext c
    exact Char.ofNat_toNat c
  rw [hcomp, List.map_id]


/-! ### Decimal rendering and parsing

`repr`/`str` of a Python `int` renders the usual decimal form; `int(bytes)`
parses ASCII digits after stripping ASCII whitespace, with an optional sign
and underscores between digits; redis `INCR` parses its operand strictly
(optional minus sign, no whitespace, no leading zeros). -/

/-- Decimal digits of `n`, most significant first; `fuel`-indexed,
`fuel > 0` and `fuel ≥ n` always suffice. -/
def natDigitsAux : Nat → Nat → List Nat
  | 0, _ => []
  | fuel + 1, n => if n < 10 then [n] else natDigitsAux fuel (n / 10) ++ [n % 10]

/-- Decimal digits of `n`, most significant first (`0` gives `[0]`). -/
def natDigits (n : Nat) : List Nat := natDigitsAux (n + 1) n

/-- The character for decimal digit `d`. -/
def digitChar (d : Nat) : Char := Char.ofNat (48 + d)

/-- Decimal rendering of a natural number. -/
def natRepr (n : Nat) : String := String.mk ((natDigits n).map digitChar)

/-- Python `repr`/`str` of an integer. -/
def intRepr : Int → String
  | .ofNat m => natRepr m
  | .negSucc m => "-" ++ natRepr (m + 1)

theorem natDigitsAux_foldl (fuel : Nat) :
    ∀ n a, n ≤ fuel →
      List.foldl (fun x d => x * 10 + d) a (natDigitsAux fuel n) =
        a * 10 ^ (natDigitsAux fuel n).length + n := by
  induction fuel with
  | zero =>
    intro n a hn
    interval_cases n
    simp [natDigitsAux]
  | succ fuel ih =>
    intro n a hn
    by_cases hsmall : n < 10
    · simp [natDigitsAux, hsmall]
    · have hdiv : n / 10 ≤ fuel := by omega
      simp only [natDigitsAux, if_neg hsmall, List.foldl_append, List.length_append,
        List.foldl_cons, List.foldl_nil, List.length_cons, List.length_nil]
      rw [ih (n / 10) a hdiv]
      rw [pow_succ]
      have hring : (a * 10 ^ (natDigitsAux fuel (n / 10)).length + n / 10) * 10 + n % 10 =
          a * (10 ^ (natDigitsAux fuel (n / 10)).length * 10) + (n / 10 * 10 + n % 10) := by ring
      rw [hring]
      congr 1
      omega

theorem natDigitsAux_lt_ten (fuel : Nat) :
    ∀ n, n ≤ fuel → ∀ d ∈ natDigitsAux fuel n, d < 10 := by
  induction fuel with
  | zero =>
    intro n hn d hd
    interval_cases n
    simp [natDigitsAux] at hd
  | succ fuel ih =>
    intro n hn d hd
    by_cases hsmall : n < 10
    · simp [natDigitsAux, hsmall] at hd
      omega
    · simp only [natDigitsAux, if_neg hsmall, List.mem_append, List.mem_singleton] at hd
      rcases hd with hd | hd
      · exact ih (n / 10) (by omega) d hd
      · omega

theorem natDigitsAux_head_pos (fuel : Nat) :
    ∀ n, 1 ≤ n → n ≤ fuel → ∃ d ds, natDigitsAux fuel n = d :: ds ∧ 1 ≤ d := by
  induction fuel with
  | zero => omega
  | succ fuel ih =>
    intro n h1 h2
    by_cases hsmall : n < 10
    · exact ⟨n, [], by simp [natDigitsAux, hsmall], h1⟩
    · obtain ⟨d, ds, heq, hd⟩ := ih (n / 10) (by omega) (by omega)
      exact ⟨d, ds ++ [n % 10], by simp [natDigitsAux, hsmall, heq], hd⟩

theorem natDigitsAux_fuel_eq (f1 : Nat) :
    ∀ f2 n, n ≤ f1 → n ≤ f2 → 1 ≤ f1 → 1 ≤ f2 →
      natDigitsAux f1 n = natDigitsAux f2 n := by
  induction f1 with
  | zero => omega
  | succ f1 ih =>
    intro f2 n hn1 hn2 _ hf2
    cases f2 with
    | zero => omega
    | succ f2' =>
      by_cases hsmall : n < 10
      · simp [natDigitsAux, hsmall]
      · simp only [natDigitsAux, if_neg hsmall]
        rw [ih f2' (n / 10) (by omega) (by omega) (by omega) (by omega)]

theorem natDigits_foldl (n : Nat) :
    List.foldl (fun x d => x * 10 + d) 0 (natDigits n) = n := by
  have h := natDigitsAux_foldl (n + 1) n 0 (by omega)
  simpa [natDigits] using h

theorem natDigits_lt_ten (n : Nat) : ∀ d ∈ natDigits n, d < 10 :=
  natDigitsAux_lt_ten (n + 1) n (by omega)

theorem natDigits_cons (n : Nat) : ∃ d ds, natDigits n = d :: ds ∧ d < 10 := by
  by_cases h0 : n = 0
  · subst h0
    exact ⟨0, [], rfl, by omega⟩
  · obtain ⟨d, ds, heq, _⟩ := natDigitsAux_head_pos (n + 1) n (by omega) (by omega)
    refine ⟨d, ds, heq, natDigits_lt_ten n d ?_⟩
    rw [natDigits, heq]
    simp

theorem natDigits_head_pos (n : Nat) (h : 1 ≤ n) :
    ∃ d ds, natDigits n = d :: ds ∧ 1 ≤ d :=
  natDigitsAux_head_pos (n + 1) n h (by omega)

theorem digitChar_toNat (d : Nat) (h : d < 10) : (digitChar d).toNat = 48 + d := by
  revert h
  revert d
  decide

/-- ASCII whitespace bytes stripped by Python `int()`. -/
def isAsciiWs (b : Nat) : Bool :=
  b == 9 || b == 10 || b == 11 || b == 12 || b == 13 || b == 32

/-- Strip leading and trailing ASCII whitespace from a byte string. -/
def stripWs (bs : Bytes) : Bytes :=
  ((bs.dropWhile isAsciiWs).reverse.dropWhile isAsciiWs).reverse

/-- Parse the continuation of an ASCII digit run, allowing single
underscores between digits (Python `int()` literal syntax); `afterUs`
records that the previous byte was an underscore. -/
def parseDigitsLoop : Nat → Bool → List Nat → Option Nat
  | acc, afterUs, [] => if afterUs then none else some acc
  | acc, afterUs, b :: bs =>
    if 48 ≤ b ∧ b ≤ 57 then parseDigitsLoop (acc * 10 + (b - 48)) false bs
    else if b = 95 ∧ afterUs = false then parseDigitsLoop acc true bs
    else none

/-- Parse a nonempty digit run (first byte must be a digit). -/
def parseDigits : List Nat → Option Nat
  | [] => none
  | b :: rest => if 48 ≤ b ∧ b ≤ 57 then parseDigitsLoop (b - 48) false rest else none

/-- Sign handling of Python `int()` after whitespace stripping. -/
def pyParseCore : List Nat → Option Int
  | [] => none
  | b :: rest =>
    if b = 43 then Option.map Int.ofNat (parseDigits rest)
    else if b = 45 then Option.map (fun n => -(Int.ofNat n)) (parseDigits rest)
    else Option.map Int.ofNat (parseDigits (b :: rest))

/-- Python `int(bytes)`: strip ASCII whitespace, optional sign, decimal
digits (underscores allowed between digits); `none` models `ValueError`. -/
def pyParseIntBytes (bs : Bytes) : Option Int :=
  pyParseCore (stripWs bs)

/-- Strict digit-run parser for redis integer operands (no underscores). -/
def redisLoop : Nat → List Nat → Option Nat
  | acc, [] => some acc
  | acc, b :: bs =>
    if 48 ≤ b ∧ b ≤ 57 then redisLoop (acc * 10 + (b - 48)) bs else none

/-- Parse a redis integer operand digit part: `"0"` alone, or a nonzero
leading digit followed by digits (redis `string2ll` rejects leading zeros). -/
def redisParseDigits : List Nat → Option Nat
  | [] => none
  | b :: rest =>
    if b = 48 then (if rest = [] then some 0 else none)
    else if 49 ≤ b ∧ b ≤ 57 then redisLoop (b - 48) rest
    else none

/-- Redis integer parsing for `INCR` (optional minus sign, strict digits). -/
def redisParseInt : Bytes → Option Int
  | [] => none
  | b :: rest =>
    if b = 45 then Option.map (fun n => -(Int.ofNat n)) (redisParseDigits rest)
    else Option.map Int.ofNat (redisParseDigits (b :: rest))

theorem parseDigitsLoop_digits (ds : List Nat) :
    ∀ acc, (∀ d ∈ ds, d < 10) →
      parseDigitsLoop acc false (ds.map (fun d => 48 + d)) =
        some (List.foldl (fun x d => x * 10 + d) acc ds) := by
  induction ds with
  | nil => intro acc _; rfl
  | cons d ds ih =>
    intro acc h
    have hd : d < 10 := h d (by simp)
    have hds : ∀ x ∈ ds, x < 10 := fun x hx => h x (by simp [hx])
    simp only [List.map_cons, parseDigitsLoop, List.foldl_cons]
    rw [if_pos (by omega)]
    have hsub : 48 + d - 48 = d := by omega
    rw [hsub, ih _ hds]

theorem redisLoop_digits (ds : List Nat) :
    ∀ acc, (∀ d ∈ ds, d < 10) →
      redisLoop acc (ds.map (fun d => 48 + d)) =
        some (List.foldl (fun x d => x * 10 + d) acc ds) := by
  induction ds with
  | nil => intro acc _; rfl
  | cons d ds ih =>
    intro acc h
    have hd : d < 10 := h d (by simp)
    have hds : ∀ x ∈ ds, x < 10 := fun x hx => h x (by simp [hx])
    simp only [List.map_cons, redisLoop, List.foldl_cons]
    rw [if_pos (by omega)]
    have hsub : 48 + d - 48 = d := by omega
    rw [hsub, ih _ hds]

theorem stripWs_of_no_ws (bs : Bytes) (h : ∀ b ∈ bs, isAsciiWs b = false) :
    stripWs bs = bs := by
  have h1 : bs.dropWhile isAsciiWs = bs := by
    cases bs with
    | nil => rfl
    | cons b rest => simp [List.dropWhile_cons, h b (by simp)]
  rw [stripWs, h1]
  have h2 : bs.reverse.dropWhile isAsciiWs = bs.reverse := by
    cases hrev : bs.reverse with
    | nil => rfl
    | cons b rest =>
      have hb : b ∈ bs := by
        have hmem : b ∈ bs.reverse := by rw [hrev]; simp
        simpa using hmem
      simp [List.dropWhile_cons, h b hb]
  rw [h2, List.reverse_reverse]

/-- The UTF-8 encoding of a list of ASCII code points is itself. -/
theorem utf8EncodeCps_ascii (cps : List Nat) (h : ∀ n ∈ cps, n < 0x80) :
    utf8EncodeCps cps = cps := by
  induction cps with
  | nil => rfl
  | cons c cs ih =>
    have hc : c < 0x80 := h c (by simp)
    have hcs : ∀ n ∈ cs, n < 0x80 := fun n hn => h n (by simp [hn])
    simp [utf8EncodeCps, utf8EncodeCp, hc] at ih ⊢
    exact ih hcs

theorem utf8Encode_natRepr (n : Nat) :
    utf8Encode (natRepr n) = (natDigits n).map (fun d => 48 + d) := by
  rw [utf8Encode, natRepr]
  have hmap : (String.mk ((natDigits n).map digitChar)).data.map Char.toNat =
      (natDigits n).map (fun d => 48 + d) := by
    simp only [String.data]
    rw [List.map_map]
    apply List.map_congr_left
    intro d hd
    exact digitChar_toNat d (natDigits_lt_ten n d hd)
  rw [hmap]
  apply utf8EncodeCps_ascii
  intro m hm
  rcases List.mem_map.1 hm with ⟨d, hd, rfl⟩
  have := natDigits_lt_ten n d hd
  omega

theorem parseDigits_natDigits (n : Nat) :
    parseDigits ((natDigits n).map (fun d => 48 + d)) = some n := by
  obtain ⟨d, ds, heq, hd⟩ := natDigits_cons n
  have hds : ∀ x ∈ ds, x < 10 := by
    intro x hx
    exact natDigits_lt_ten n x (by rw [heq]; simp [hx])
  rw [heq]
  simp only [List.map_cons, parseDigits]
  rw [if_pos (by omega)]
  have hsub : 48 + d - 48 = d := by omega
  rw [hsub, parseDigitsLoop_digits ds d hds]
  have hfold := natDigits_foldl n
  rw [heq] at hfold
  simp only [List.foldl_cons] at hfold
  rw [show (0 * 10 + d) = d from by omega] at hfold
  rw [hfold]

theorem redisParseDigits_natDigits (n : Nat) :
    redisParseDigits ((natDigits n).map (fun d => 48 + d)) = some n := by
  by_cases h0 : n = 0
  · subst h0
    rfl
  · obtain ⟨d, ds, heq, hdpos⟩ := natDigits_head_pos n (by omega)
    have hd10 : d < 10 := natDigits_lt_ten n d (by rw [heq]; simp)
    have hds : ∀ x ∈ ds, x < 10 := by
      intro x hx
      exact natDigits_lt_ten n x (by rw [heq]; simp [hx])
    rw [heq]
    simp only [List.map_cons, redisParseDigits]
    rw [if_neg (by omega), if_pos (by omega)]
    have hsub : 48 + d - 48 = d := by omega
    rw [hsub, redisLoop_digits ds d hds]
    have hfold := natDigits_foldl n
    rw [heq] at hfold
    simp only [List.foldl_cons] at hfold
    rw [show (0 * 10 + d) = d from by omega] at hfold
    rw [hfold]

theorem natRepr_bytes_digit_range (n : Nat) :
    ∀ b ∈ utf8Encode (natRepr n), 48 ≤ b ∧ b ≤ 57 := by
  rw [utf8Encode_natRepr]
  intro b hb
  rcases List.mem_map.1 hb with ⟨d, hd, rfl⟩
  have := natDigits_lt_ten n d hd
  omega

theorem utf8Encode_neg_natRepr (m : Nat) :
    utf8Encode ("-" ++ natRepr m) = 45 :: utf8Encode (natRepr m) := by
  rw [utf8Encode, utf8Encode]
  have hdata : ("-" ++ natRepr m).data = '-' :: (natRepr m).data := rfl
  rw [hdata]
  simp only [List.map_cons]
  have h45 : ('-').toNat = 45 := by decide
  rw [h45]
  have hsplit : utf8EncodeCps (45 :: (natRepr m).data.map Char.toNat) =
      utf8EncodeCp 45 ++ utf8EncodeCps ((natRepr m).data.map Char.toNat) := by
    simp [utf8EncodeCps]
  rw [hsplit]
  rfl

/-- Python `int(str(n).encode())` recovers `n` (decimal round trip). -/
theorem pyParseIntBytes_intRepr (k : Int) :
    pyParseIntBytes (utf8Encode (intRepr k)) = some k := by
  cases k with
  | ofNat n =>
    show pyParseIntBytes (utf8Encode (natRepr n)) = some (Int.ofNat n)
    have hstrip : stripWs (utf8Encode (natRepr n)) = utf8Encode (natRepr n) := by
      apply stripWs_of_no_ws
      intro b hb
      have := natRepr_bytes_digit_range n b hb
      simp [isAsciiWs]
      omega
    rw [pyParseIntBytes, hstrip, utf8Encode_natRepr]
    obtain ⟨d, ds, heq, hd⟩ := natDigits_cons n
    have hp := parseDigits_natDigits n
    rw [heq] at hp ⊢
    simp only [List.map_cons] at hp ⊢
    rw [pyParseCore]
    rw [if_neg (by omega), if_neg (by omega), hp]
    rfl
  | negSucc m =>
    show pyParseIntBytes (utf8Encode ("-" ++ natRepr (m + 1))) = some (Int.negSucc m)
    rw [utf8Encode_neg_natRepr]
    have hstrip : stripWs (45 :: utf8Encode (natRepr (m + 1))) =
        45 :: utf8Encode (natRepr (m + 1)) := by
      apply stripWs_of_no_ws
      intro b hb
      simp only [List.mem_cons] at hb
      rcases hb with rfl | hb
      · simp [isAsciiWs]
      · have := natRepr_bytes_digit_range (m + 1) b hb
        simp [isAsciiWs]
        omega
    rw [pyParseIntBytes, hstrip, pyParseCore]
    rw [if_neg (by omega), if_pos rfl]
    rw [utf8Encode_natRepr, parseDigits_natDigits]
    simp only [Option.map_some']
    congr 1

/-- Redis `INCR` parsing recovers the canonically rendered integer. -/
theorem redisParseInt_intRepr (k : Int) :
    redisParseInt (utf8Encode (intRepr k)) = some k := by
  cases k with
  | ofNat n =>
    show redisParseInt (utf8Encode (natRepr n)) = some (Int.ofNat n)
    rw [utf8Encode_natRepr]
    obtain ⟨d, ds, heq, hd⟩ := natDigits_cons n
    have hrp := redisParseDigits_natDigits n
    rw [heq] at hrp ⊢
    simp only [List.map_cons] at hrp ⊢
    rw [redisParseInt]
    rw [if_neg (by omega), hrp]
    rfl
  | negSucc m =>
    show redisParseInt (utf8Encode ("-" ++ natRepr (m + 1))) = some (Int.negSucc m)
    rw [utf8Encode_neg_natRepr, redisParseInt]
    rw [if_pos rfl]
    rw [utf8Encode_natRepr, redisParseDigits_natDigits]
    simp only [Option.map_some']
    congr 1

/-! ### Python values and their renderings -/

/-- Python exceptions raised by the modelled code. -/
inductive PyErr where
  | nameError (name : String)
  | valueError (msg : String)
  | responseError (msg : String)
  | typeError (msg : String)
  | unicodeDecodeError
  deriving DecidableEq

/-- Python floats are modelled by their canonical `repr` string. CPython
guarantees `float(repr(x)) == x` and `repr` is injective on floats, so every
float (NaN aside, where Python equality itself is not reflexive) is
determined by its repr; the redis encoder stores exactly
`repr(value).encode()`, so nothing else about the float is observable here. -/
structure PyFloat where
  repr : String
  deriving DecidableEq

/-- The value types `Cache.store` accepts: `Union[str, bytes, int, float]`. -/
inductive PyValue where
  | str (s : String)
  | bytes (b : Bytes)
  | int (n : Int)
  | float (f : PyFloat)
  deriving DecidableEq

/-- Lowercase hex digit character. -/
def hexDigitChar (d : Nat) : Char := Char.ofNat (if d < 10 then 48 + d else 87 + d)

/-- Escaping of one character inside a Python `str` repr quoted by `quote`:
backslash, the quote, `\n`, `\r`, `\t`, and `\xHH` for other C0 controls and
DEL; other characters are rendered directly. -/
def escapeChar (quote : Char) (c : Char) : List Char :=
  if c = '\\' then ['\\', '\\']
  else if c = quote then ['\\', quote]
  else if c.toNat = 10 then ['\\', 'n']
  else if c.toNat = 13 then ['\\', 'r']
  else if c.toNat = 9 then ['\\', 't']
  else if c.toNat < 32 ∨ c.toNat = 127 then
    ['\\', 'x', hexDigitChar (c.toNat / 16), hexDigitChar (c.toNat % 16)]
  else [c]

/-- Python `repr` of a text string: single quotes, or double quotes when the
string contains a single quote but no double quote. -/
def pyReprStr (s : String) : String :=
  let q := if s.data.contains '\'' && !(s.data.contains '"') then '"' else '\''
  String.mk (q :: (s.data.map (escapeChar q)).flatten ++ [q])

/-- Escaping of one byte inside a Python `bytes` repr quoted by `quote`. -/
def escapeByte (quote : Nat) (b : Nat) : List Char :=
  if b = 92 then ['\\', '\\']
  else if b = quote then ['\\', Char.ofNat quote]
  else if b = 10 then ['\\', 'n']
  else if b = 13 then ['\\', 'r']
  else if b = 9 then ['\\', 't']
  else if 32 ≤ b ∧ b < 127 then [Char.ofNat b]
  else ['\\', 'x', hexDigitChar (b / 16 % 16), hexDigitChar (b % 16)]

/-- Python `repr` of a byte string (`b'...'`). -/
def pyReprBytes (bs : Bytes) : String :=
  let q := if bs.contains 39 && !(bs.contains 34) then 34 else 39
  String.mk ('b' :: Char.ofNat q :: (bs.map (escapeByte q)).flatten ++ [Char.ofNat q])

/-- Python `repr` of a stored value. -/
def pyRepr : PyValue → String
  | .str s => pyReprStr s
  | .bytes b => pyReprBytes b
  | .int n => intRepr n
  | .float f => f.repr

/-- Python `str` of the positional-argument tuple (`str(args)` in
`call_history`): elements rendered with `repr`, trailing comma for a
1-tuple. -/
def pyStrTuple : List PyValue → String
  | [] => "()"
  | [v] => "(" ++ pyRepr v ++ ",)"
  | vs => "(" ++ String.intercalate ", " (vs.map pyRepr) ++ ")"

/-- The redis-py `Encoder.encode`: bytes pass through, `int`/`float` are
rendered with `repr` then UTF-8 encoded, text is UTF-8 encoded. -/
def encodeValue : PyValue → Bytes
  | .str s => utf8Encode s
  | .bytes b => b
  | .int n => utf8Encode (intRepr n)
  | .float f => utf8Encode f.repr

/-! ### The redis store

The store is the out-of-scope collaborator; following the specification's
store contract it is modelled with string keys, byte-string and list
values, per-key expiry (for `SETEX`) and unbounded integers for `INCR`. -/

/-- A redis value: a byte string or a list of byte strings. -/
inductive RVal where
  | str (b : Bytes)
  | list (items : List Bytes)
  deriving DecidableEq

/-- The redis `WRONGTYPE` error text. -/
def wrongTypeMsg : String :=
  "WRONGTYPE Operation against a key holding the wrong kind of value"

/-- The redis database: entries `(key, value, optional expiry time)`. An
entry with expiry `some e` is live at time `now` iff `now < e`. -/
structure RedisDB where
  entries : List (String × RVal × Option Nat)
  deriving DecidableEq

/-- The empty database. -/
def emptyDB : RedisDB := ⟨[]⟩

/-- The live value at `key` at time `now` (expired entries read as absent). -/
def RedisDB.lookupLive (db : RedisDB) (now : Nat) (key : String) : Option RVal :=
  match db.entries.find? (fun e => e.1 == key) with
  | none => none
  | some (_, v, none) => some v
  | some (_, v, some e) => if now < e then some v else none

/-- The live expiry of `key` at time `now`, if any. -/
def RedisDB.liveExpiry (db : RedisDB) (now : Nat) (key : String) : Option Nat :=
  match db.entries.find? (fun e => e.1 == key) with
  | some (_, _, some e) => if now < e then some e else none
  | _ => none

/-- Write an entry, replacing any previous entry for the key. -/
def RedisDB.write (db : RedisDB) (key : String) (v : RVal) (exp : Option Nat) : RedisDB :=
  ⟨(key, v, exp) :: db.entries.filter (fun e => !(e.1 == key))⟩

/-- Redis `GET`: byte-string value or absent; `WRONGTYPE` on a list key. -/
def RedisDB.get (db : RedisDB) (now : Nat) (key : String) : Except PyErr (Option Bytes) :=
  match db.lookupLive now key with
  | none => .ok none
  | some (.str b) => .ok (some b)
  | some (.list _) => .error (.responseError wrongTypeMsg)

/-- Redis `SET`: stores a byte string, clearing any TTL. -/
def RedisDB.set (db : RedisDB) (key : String) (v : Bytes) : RedisDB :=
  db.write key (.str v) none

/-- Redis `SETEX key ttl value`: stores with expiry `now + ttl`. -/
def RedisDB.setex (db : RedisDB) (now : Nat) (key : String) (ttl : Nat) (v : Bytes) : RedisDB :=
  db.write key (.str v) (some (now + ttl))

/-- Redis `INCR`: an absent key becomes `1`; an existing byte-string value
must parse as an integer (unbounded, per the specification's store
contract); the TTL is preserved; `WRONGTYPE` on a list key. -/
def RedisDB.incr (db : RedisDB) (now : Nat) (key : String) : Except PyErr (RedisDB × Int) :=
  match db.lookupLive now key with
  | none => .ok (db.write key (.str (utf8Encode (intRepr 1))) none, 1)
  | some (.str b) =>
    match redisParseInt b with
    | none => .error (.responseError "value is not an integer or out of range")
    | some n =>
      .ok (db.write key (.str (utf8Encode (intRepr (n + 1)))) (db.liveExpiry now key), n + 1)
  | some (.list _) => .error (.responseError wrongTypeMsg)

/-- Redis `RPUSH key value` (single value, as used by `call_history`). -/
def RedisDB.rpush (db : RedisDB) (now : Nat) (key : String) (v : Bytes) :
    Except PyErr RedisDB :=
  match db.lookupLive now key with
  | none => .ok (db.write key (.list [v]) none)
  | some (.list l) => .ok (db.write key (.list (l ++ [v])) (db.liveExpiry now key))
  | some (.str _) => .error (.responseError wrongTypeMsg)

/-- Redis `LRANGE key 0 -1`: the whole list, `[]` when absent. -/
def RedisDB.lrangeAll (db : RedisDB) (now : Nat) (key : String) : Except PyErr (List Bytes) :=
  match db.lookupLive now key with
  | none => .ok []
  | some (.list l) => .ok l
  | some (.str _) => .error (.responseError wrongTypeMsg)

/-- Redis `FLUSHDB`: remove every key of the database. -/
def RedisDB.flushdb (_ : RedisDB) : RedisDB := emptyDB

/-! ### The `Cache` class and its decorators -/

/-- State threading for `Cache` methods: the shared database, the current
time, the stream of future `str(uuid.uuid4())` results and how many have
been consumed. Randomness is an external input, so the uuid stream is part
of the state. -/
structure CacheState where
  db : RedisDB
  now : Nat
  uuidAt : Nat → String
  tick : Nat

/-- A Python bound-method call: positional arguments, keyword arguments and
state in; state out plus a normal result or a raised error. A raised error
does not roll back store writes already performed. -/
abbrev Method :=
  List PyValue → List (String × PyValue) → CacheState → CacheState × Except PyErr PyValue

/-- The `count_calls` decorator: the wrapper increments (`INCR`) the counter
keyed by the method's qualified name, then invokes the wrapped method. -/
def count_calls (qualname : String) (method : Method) : Method := fun args kwargs s =>
  match s.db.incr s.now qualname with
  | .error e => (s, .error e)
  | .ok (db2, _) => method args kwargs { s with db := db2 }

/-- The `call_history` decorator: the wrapper appends `str(args)` to
`<qualname>:inputs`, invokes the wrapped method, then appends the encoded
return value to `<qualname>:outputs` and returns it. -/
def call_history (qualname : String) (method : Method) : Method := fun args kwargs s =>
  match s.db.rpush s.now (qualname ++ ":inputs") (utf8Encode (pyStrTuple args)) with
  | .error e => (s, .error e)
  | .ok db1 =>
    match method args kwargs { s with db := db1 } with
    | (s2, .error e) => (s2, .error e)
    | (s2, .ok out) =>
      match s2.db.rpush s2.now (qualname ++ ":outputs") (encodeValue out) with
      | .error e => (s2, .error e)
      | .ok db3 => ({ s2 with db := db3 }, .ok out)

/-- Python argument binding for `def store(self, data)`: one positional
argument or the keyword `data`. -/
def bindStoreArgs (args : List PyValue) (kwargs : List (String × PyValue)) :
    Except PyErr PyValue :=
  match args, kwargs with
  | [v], [] => .ok v
  | [], [("data", v)] => .ok v
  | [_], [("data", _)] => .error (.typeError "store() got multiple values for argument data")
  | [], [] => .error (.typeError "store() missing 1 required positional argument: data")
  | _, _ => .error (.typeError "store() got unexpected arguments")

/-- The body of `Cache.store`: `key = str(uuid.uuid4())`, `SET key data`
(data encoded by the client), return the key. -/
def store_inner : Method := fun args kwargs s =>
  match bindStoreArgs args kwargs with
  | .error e => (s, .error e)
  | .ok data =>
    let key := s.uuidAt s.tick
    ({ s with db := s.db.set key (encodeValue data), tick := s.tick + 1 }, .ok (.str key))

/-- The decorated `Cache.store` of the source: `@count_calls` over
`@call_history` over the body, with qualified name `"Cache.store"`. -/
def Cache.store : Method := count_calls "Cache.store" (call_history "Cache.store" store_inner)

/-- The method `Cache.get`: read raw bytes at `key`; absent gives `None` (and the
decode function is never applied); otherwise apply the optional decode
function, whose errors propagate. -/
def Cache.get (db : RedisDB) (now : Nat) (key : String)
    (fn : Option (Bytes → Except PyErr PyValue)) : Except PyErr (Option PyValue) :=
  match db.get now key with
  | .error e => .error e
  | .ok none => .ok none
  | .ok (some b) =>
    match fn with
    | none => .ok (some (.bytes b))
    | some f => (f b).map some

/-- The decode function of `Cache.get_str`: `lambda d: d.decode("utf-8")`. -/
def strFn (b : Bytes) : Except PyErr PyValue :=
  match utf8Decode b with
  | some s => .ok (.str s)
  | none => .error .unicodeDecodeError

/-- The decode function of `Cache.get_int`: `int`. -/
def intFn (b : Bytes) : Except PyErr PyValue :=
  match pyParseIntBytes b with
  | some n => .ok (.int n)
  | none => .error (.valueError "invalid literal for int with base 10")

/-- The method `Cache.get_str`. -/
def Cache.get_str (db : RedisDB) (now : Nat) (key : String) : Except PyErr (Option PyValue) :=
  Cache.get db now key (some strFn)

/-- The method `Cache.get_int`. -/
def Cache.get_int (db : RedisDB) (now : Nat) (key : String) : Except PyErr (Option PyValue) :=
  Cache.get db now key (some intFn)

/-- The constructor `Cache.__init__`: connect to redis and `FLUSHDB`. -/
def Cache.init (db : RedisDB) : RedisDB := db.flushdb

/-! ### `replay` -/

/-- Decode and render the paired history lines of `replay`, in order. -/
def renderLines (qualname : String) : List (Bytes × Bytes) → Except PyErr (List String)
  | [] => .ok []
  | (i, o) :: rest =>
    match utf8Decode i with
    | none => .error .unicodeDecodeError
    | some istr =>
      match utf8Decode o with
      | none => .error .unicodeDecodeError
      | some ostr =>
        match renderLines qualname rest with
        | .error e => .error e
        | .ok ls => .ok ((qualname ++ "(*" ++ istr ++ ") -> " ++ ostr) :: ls)

/-- Python `int(call_count) if call_count else 0`: absent and empty byte strings
are falsy and read as `0`; anything else goes through `int()`. -/
def replayCount : Option Bytes → Except PyErr Int
  | none => .ok 0
  | some [] => .ok 0
  | some (b :: bs) =>
    match pyParseIntBytes (b :: bs) with
    | some n => .ok n
    | none => .error (.valueError "invalid literal for int with base 10")

/-- The function `replay(method)`: read the call counter (`GET`), the `:inputs` and
`:outputs` lists (`LRANGE`), pair them positionally (`zip` truncates to the
shorter), and render the transcript. The printed lines are returned; a
raised error is modelled by `.error` (the store is only read, never
written). -/
def replay (qualname : String) (now : Nat) (db : RedisDB) : Except PyErr (List String) :=
  match db.get now qualname with
  | .error e => .error e
  | .ok cntBytes =>
    match replayCount cntBytes with
    | .error e => .error e
    | .ok c =>
      match db.lrangeAll now (qualname ++ ":inputs") with
      | .error e => .error e
      | .ok ins =>
        match db.lrangeAll now (qualname ++ ":outputs") with
        | .error e => .error e
        | .ok outs =>
          match renderLines qualname (List.zip ins outs) with
          | .error e => .error e
          | .ok ls => .ok ((qualname ++ " was called " ++ intRepr c ++ " times:") :: ls)

/-! ### The page cache (`count_access`, `cache_page`, `get_page`)

These functions use the module-level global `redis_client` and the module
`requests`; global names are looked up at call time, so the embedding
resolves them against the module's global namespace. -/

/-- The module-level names bound by executing `exercise.py` top to bottom:
`import redis`, `import uuid`, the three names imported from `typing`,
`wraps` from `functools`, and the module's own `def`/`class` statements.
Neither `redis_client` nor `requests` is ever bound. -/
def moduleGlobals : List String :=
  ["redis", "uuid", "Union", "Callable", "Optional", "wraps",
   "count_calls", "call_history", "replay", "Cache",
   "count_access", "cache_page", "get_page"]

/-- Python global-name resolution: `NameError` when the name is unbound. -/
def resolveGlobal (n : String) : Except PyErr Unit :=
  if n ∈ moduleGlobals then .ok () else .error (.nameError n)

/-- State for the page-cache functions: the module-level client's database,
the clock, the external fetch oracle, and the log of performed fetches. -/
structure PageState where
  db : RedisDB
  now : Nat
  fetch : String → String
  fetchLog : List String

/-- A page-fetching function of one url argument. -/
abbrev PageFn := String → PageState → PageState × Except PyErr String

/-- The undecorated body of `get_page`: `requests.get(url).text`. Resolving
the never-imported global `requests` precedes the HTTP request. -/
def get_page_body : PageFn := fun url s =>
  match resolveGlobal "requests" with
  | .error e => (s, .error e)
  | .ok _ => ({ s with fetchLog := s.fetchLog ++ [url] }, .ok (s.fetch url))

/-- The `cache_page` decorator: look up `cache:<url>`; on a hit return the
decoded content; on a miss invoke the body and `SETEX` the content with a
10-second TTL. Uses the global `redis_client`. -/
def cache_page (method : PageFn) : PageFn := fun url s =>
  match resolveGlobal "redis_client" with
  | .error e => (s, .error e)
  | .ok _ =>
    match s.db.get s.now ("cache:" ++ url) with
    | .error e => (s, .error e)
    | .ok (some cached) =>
      match utf8Decode cached with
      | none => (s, .error .unicodeDecodeError)
      | some text => (s, .ok text)
    | .ok none =>
      match method url s with
      | (s1, .error e) => (s1, .error e)
      | (s1, .ok content) =>
        ({ s1 with db := s1.db.setex s1.now ("cache:" ++ url) 10 (utf8Encode content) },
          .ok content)

/-- The `count_access` decorator: unconditionally `INCR count:<url>`, then
invoke the wrapped function. Uses the global `redis_client`. -/
def count_access (method : PageFn) : PageFn := fun url s =>
  match resolveGlobal "redis_client" with
  | .error e => (s, .error e)
  | .ok _ =>
    match s.db.incr s.now ("count:" ++ url) with
    | .error e => (s, .error e)
    | .ok (db2, _) => method url { s with db := db2 }

/-- The decorated `get_page` of the source: `@count_access` over
`@cache_page` over the body. -/
def get_page : PageFn := count_access (cache_page get_page_body)

/-! ### Store frame lemmas -/

theorem ne_of_data_length {a b : String} (h : a.data.length ≠ b.data.length) : a ≠ b :=
  fun he => h (by rw [he])

theorem find?_filter_other (l : List (String × RVal × Option Nat)) (k k' : String)
    (h : k' ≠ k) :
    (l.filter (fun e => !(e.1 == k))).find? (fun e => e.1 == k') =
      l.find? (fun e => e.1 == k') := by
  induction l with
  | nil => rfl
  | cons e rest ih =>
    by_cases he : e.1 = k
    · have hfilter : (e :: rest).filter (fun x => !(x.1 == k)) =
          rest.filter (fun x => !(x.1 == k)) := by
        simp [List.filter_cons, he]
      have hne : (e.1 == k') = false := by
        simp [he]
        exact fun hx => h hx.symm
      rw [hfilter, ih, List.find?_cons_of_neg _ (by simp [hne])]
    · have hfilter : (e :: rest).filter (fun x => !(x.1 == k)) =
          e :: rest.filter (fun x => !(x.1 == k)) := by
        simp [List.filter_cons, he]
      rw [hfilter]
      by_cases hk' : e.1 = k'
      · rw [List.find?_cons_of_pos _ (by simp [hk']), List.find?_cons_of_pos _ (by simp [hk'])]
      · rw [List.find?_cons_of_neg _ (by simp [hk']), List.find?_cons_of_neg _ (by simp [hk']),
          ih]

theorem find?_write_self (db : RedisDB) (k : String) (v : RVal) (e : Option Nat) :
    (db.write k v e).entries.find? (fun x => x.1 == k) = some (k, v, e) := by
  rw [RedisDB.write]
  exact List.find?_cons_of_pos _ (by simp)

theorem find?_write_other (db : RedisDB) (k k' : String) (v : RVal) (e : Option Nat)
    (h : k' ≠ k) :
    (db.write k v e).entries.find? (fun x => x.1 == k') =
      db.entries.find? (fun x => x.1 == k') := by
  rw [RedisDB.write]
  show ((k, v, e) :: db.entries.filter (fun x => !(x.1 == k))).find? (fun x => x.1 == k') = _
  rw [List.find?_cons_of_neg _ (by simp; exact fun hx => h hx.symm)]
  exact find?_filter_other db.entries k k' h

theorem lookupLive_of_find_none_exp {db : RedisDB} {key : String} {v : RVal}
    (h : db.entries.find? (fun x => x.1 == key) = some (key, v, none)) :
    ∀ t, db.lookupLive t key = some v := by
  intro t
  rw [RedisDB.lookupLive, h]

theorem liveExpiry_of_find_none_exp {db : RedisDB} {key : String} {v : RVal}
    (h : db.entries.find? (fun x => x.1 == key) = some (key, v, none)) :
    ∀ t, db.liveExpiry t key = none := by
  intro t
  rw [RedisDB.liveExpiry, h]

theorem lookupLive_none_of_find_none {db : RedisDB} {key : String}
    (h : db.entries.find? (fun x => x.1 == key) = none) :
    ∀ t, db.lookupLive t key = none := by
  intro t
  rw [RedisDB.lookupLive, h]

theorem incr_ok_find_other {db db2 : RedisDB} {now : Nat} {key k' : String} {n : Int}
    (h : db.incr now key = .ok (db2, n)) (hne : k' ≠ key) :
    db2.entries.find? (fun x => x.1 == k') = db.entries.find? (fun x => x.1 == k') := by
  rw [RedisDB.incr] at h
  split at h
  · cases h
    exact find?_write_other db key k' _ _ hne
  · split at h
    · cases h
    · cases h
      exact find?_write_other db key k' _ _ hne
  · cases h

theorem rpush_ok_find_other {db db2 : RedisDB} {now : Nat} {key k' : String} {v : Bytes}
    (h : db.rpush now key v = .ok db2) (hne : k' ≠ key) :
    db2.entries.find? (fun x => x.1 == k') = db.entries.find? (fun x => x.1 == k') := by
  rw [RedisDB.rpush] at h
  split at h
  · cases h
    exact find?_write_other db key k' _ _ hne
  · cases h
    exact find?_write_other db key k' _ _ hne
  · cases h

/-! ### Invariants for the instrumentation keys -/

/-- The call counter for `name` currently reads `k`: absent for `k = 0`,
otherwise a permanent (no-TTL) byte-string entry holding the decimal text
of `k`. -/
def counterFound (db : RedisDB) (name : String) (k : Nat) : Prop :=
  (k = 0 ∧ ∀ t, db.lookupLive t name = none) ∨
  (1 ≤ k ∧ db.entries.find? (fun x => x.1 == name) =
    some (name, .str (utf8Encode (intRepr (k : Int))), none))

/-- The history list at `key` currently holds exactly the byte strings `l`
(absent reads as the empty list), as a permanent entry. -/
def HistInv (db : RedisDB) (key : String) (l : List Bytes) : Prop :=
  (l = [] ∧ ∀ t, db.lookupLive t key = none) ∨
  db.entries.find? (fun x => x.1 == key) = some (key, .list l, none)

theorem counterFound_incr (now : Nat) {db : RedisDB} {name : String} {k : Nat}
    (h : counterFound db name k) :
    db.incr now name =
      .ok (db.write name (.str (utf8Encode (intRepr ((k : Int) + 1)))) none, (k : Int) + 1) := by
  rcases h with ⟨hk0, habs⟩ | ⟨hk1, hfind⟩
  · subst hk0
    rw [RedisDB.incr]
    simp only [habs now]
    norm_num
  · rw [RedisDB.incr]
    simp only [lookupLive_of_find_none_exp hfind now, redisParseInt_intRepr,
      liveExpiry_of_find_none_exp hfind now]

theorem counterFound_write (db : RedisDB) {name : String} (k : Nat) :
    counterFound (db.write name (.str (utf8Encode (intRepr ((k : Int) + 1)))) none)
      name (k + 1) := by
  right
  refine ⟨by omega, ?_⟩
  rw [find?_write_self]
  congr 2

theorem HistInv_rpush {db : RedisDB} {key : String} {l : List Bytes} {now : Nat} (v : Bytes)
    (h : HistInv db key l) :
    db.rpush now key v = .ok (db.write key (.list (l ++ [v])) none) := by
  rcases h with ⟨hl, habs⟩ | hfind
  · subst hl
    rw [RedisDB.rpush]
    simp only [habs now, List.nil_append]
  · rw [RedisDB.rpush]
    simp only [lookupLive_of_find_none_exp hfind now,
      liveExpiry_of_find_none_exp hfind now]

theorem HistInv_write (db : RedisDB) {key : String} (l : List Bytes) :
    HistInv (db.write key (.list l) none) key l := by
  right
  rw [find?_write_self]

theorem counterFound_of_find_eq {db db2 : RedisDB} {name : String} {k : Nat}
    (h : counterFound db name k)
    (heq : db2.entries.find? (fun x => x.1 == name) =
      db.entries.find? (fun x => x.1 == name)) :
    counterFound db2 name k := by
  rcases h with ⟨hk0, habs⟩ | ⟨hk1, hfind⟩
  · left
    refine ⟨hk0, fun t => ?_⟩
    rw [RedisDB.lookupLive, heq]
    have := habs t
    rw [RedisDB.lookupLive] at this
    exact this
  · right
    exact ⟨hk1, by rw [heq, hfind]⟩

theorem HistInv_of_find_eq {db db2 : RedisDB} {key : String} {l : List Bytes}
    (h : HistInv db key l)
    (heq : db2.entries.find? (fun x => x.1 == key) =
      db.entries.find? (fun x => x.1 == key)) :
    HistInv db2 key l := by
  rcases h with ⟨hl, habs⟩ | hfind
  · left
    refine ⟨hl, fun t => ?_⟩
    rw [RedisDB.lookupLive, heq]
    have := habs t
    rw [RedisDB.lookupLive] at this
    exact this
  · right
    rw [heq, hfind]

theorem counterFound_get {db : RedisDB} {name : String} {k : Nat}
    (h : counterFound db name k) (t : Nat) :
    db.get t name = .ok (if k = 0 then none else some (utf8Encode (intRepr (k : Int)))) := by
  rcases h with ⟨hk0, habs⟩ | ⟨hk1, hfind⟩
  · rw [RedisDB.get, habs t, if_pos hk0]
  · rw [RedisDB.get, lookupLive_of_find_none_exp hfind t, if_neg (by omega)]

theorem HistInv_lrangeAll {db : RedisDB} {key : String} {l : List Bytes}
    (h : HistInv db key l) (t : Nat) :
    db.lrangeAll t key = .ok l := by
  rcases h with ⟨hl, habs⟩ | hfind
  · rw [RedisDB.lrangeAll, habs t, hl]
  · rw [RedisDB.lrangeAll, lookupLive_of_find_none_exp hfind t]

theorem counterFound_empty (name : String) : counterFound emptyDB name 0 :=
  Or.inl ⟨rfl, fun _ => rfl⟩

theorem HistInv_empty (key : String) : HistInv emptyDB key [] :=
  Or.inl ⟨rfl, fun _ => rfl⟩

/-! ### Key distinctness

The instrumentation keys are fixed short strings; generated uuid keys have
36 characters (canonical hyphenated form), so they can never collide with
an instrumentation key. -/

theorem inputs_ne_store : ("Cache.store:inputs" : String) ≠ "Cache.store" := by decide

theorem outputs_ne_store : ("Cache.store:outputs" : String) ≠ "Cache.store" := by decide

theorem outputs_ne_inputs : ("Cache.store:outputs" : String) ≠ "Cache.store:inputs" := by decide

theorem store_ne_inputs : ("Cache.store" : String) ≠ "Cache.store:inputs" := by decide

theorem store_ne_outputs : ("Cache.store" : String) ≠ "Cache.store:outputs" := by decide

theorem inputs_ne_outputs : ("Cache.store:inputs" : String) ≠ "Cache.store:outputs" := by decide

theorem uuid_ne_store {u : String} (hu : u.data.length = 36) : u ≠ "Cache.store" :=
  ne_of_data_length (by rw [hu]; decide)

theorem uuid_ne_inputs {u : String} (hu : u.data.length = 36) : u ≠ "Cache.store:inputs" :=
  ne_of_data_length (by rw [hu]; decide)

theorem uuid_ne_outputs {u : String} (hu : u.data.length = 36) : u ≠ "Cache.store:outputs" :=
  ne_of_data_length (by rw [hu]; decide)


theorem appendInputs : ("Cache.store" ++ ":inputs" : String) = "Cache.store:inputs" := rfl

theorem appendOutputs : ("Cache.store" ++ ":outputs" : String) = "Cache.store:outputs" := rfl

/-! ### One invocation of the decorated `Cache.store` -/

set_option maxHeartbeats 1000000 in
/-- One successful invocation of the decorated `Cache.store`: the counter
advances by one, `str(args)` is appended to `:inputs`, the returned key is
appended (encoded) to `:outputs`, the data is stored under the fresh uuid
key, and the key is returned. -/
theorem store_step (a : List PyValue) (kw : List (String × PyValue)) (v : PyValue)
    (st : CacheState) (kN : Nat) (lin lout : List Bytes)
    (hbind : bindStoreArgs a kw = .ok v)
    (hc : counterFound st.db "Cache.store" kN)
    (hi : HistInv st.db "Cache.store:inputs" lin)
    (ho : HistInv st.db "Cache.store:outputs" lout)
    (hu : (st.uuidAt st.tick).data.length = 36) :
    (Cache.store a kw st).2 = .ok (.str (st.uuidAt st.tick)) ∧
    (Cache.store a kw st).1.uuidAt = st.uuidAt ∧
    (Cache.store a kw st).1.tick = st.tick + 1 ∧
    (Cache.store a kw st).1.now = st.now ∧
    counterFound (Cache.store a kw st).1.db "Cache.store" (kN + 1) ∧
    HistInv (Cache.store a kw st).1.db "Cache.store:inputs"
      (lin ++ [utf8Encode (pyStrTuple a)]) ∧
    HistInv (Cache.store a kw st).1.db "Cache.store:outputs"
      (lout ++ [encodeValue (.str (st.uuidAt st.tick))]) ∧
    (∀ t, (Cache.store a kw st).1.db.get t (st.uuidAt st.tick) =
      .ok (some (encodeValue v))) := by
  have hinc := counterFound_incr st.now hc
  have hHi1 : HistInv (st.db.write "Cache.store"
      (.str (utf8Encode (intRepr ((kN : Int) + 1)))) none) "Cache.store:inputs" lin :=
    HistInv_of_find_eq hi (find?_write_other _ _ _ _ _ inputs_ne_store)
  have hrp1 : (st.db.write "Cache.store"
      (.str (utf8Encode (intRepr ((kN : Int) + 1)))) none).rpush st.now "Cache.store:inputs"
        (utf8Encode (pyStrTuple a)) =
      .ok ((st.db.write "Cache.store" (.str (utf8Encode (intRepr ((kN : Int) + 1)))) none).write
        "Cache.store:inputs" (.list (lin ++ [utf8Encode (pyStrTuple a)])) none) :=
    HistInv_rpush _ hHi1
  have hHo1 : HistInv (((st.db.write "Cache.store"
      (.str (utf8Encode (intRepr ((kN : Int) + 1)))) none).write
        "Cache.store:inputs" (.list (lin ++ [utf8Encode (pyStrTuple a)])) none).write
        (st.uuidAt st.tick) (.str (encodeValue v)) none) "Cache.store:outputs" lout := by
    refine HistInv_of_find_eq ho ?_
    rw [find?_write_other _ _ _ _ _ (uuid_ne_outputs hu).symm,
      find?_write_other _ _ _ _ _ outputs_ne_inputs,
      find?_write_other _ _ _ _ _ outputs_ne_store]
  have hrp2 : (((st.db.write "Cache.store"
      (.str (utf8Encode (intRepr ((kN : Int) + 1)))) none).write
        "Cache.store:inputs" (.list (lin ++ [utf8Encode (pyStrTuple a)])) none).write
        (st.uuidAt st.tick) (.str (encodeValue v)) none).rpush st.now "Cache.store:outputs"
        (encodeValue (.str (st.uuidAt st.tick))) =
      .ok ((((st.db.write "Cache.store"
      (.str (utf8Encode (intRepr ((kN : Int) + 1)))) none).write
        "Cache.store:inputs" (.list (lin ++ [utf8Encode (pyStrTuple a)])) none).write
        (st.uuidAt st.tick) (.str (encodeValue v)) none).write "Cache.store:outputs"
        (.list (lout ++ [encodeValue (.str (st.uuidAt st.tick))])) none) :=
    HistInv_rpush _ hHo1
  have hmain : Cache.store a kw st =
      ({ st with
          db := (((st.db.write "Cache.store"
            (.str (utf8Encode (intRepr ((kN : Int) + 1)))) none).write
            "Cache.store:inputs" (.list (lin ++ [utf8Encode (pyStrTuple a)])) none).write
            (st.uuidAt st.tick) (.str (encodeValue v)) none).write "Cache.store:outputs"
            (.list (lout ++ [encodeValue (.str (st.uuidAt st.tick))])) none,
          tick := st.tick + 1 },
        .ok (.str (st.uuidAt st.tick))) := by
    simp only [Cache.store, count_calls, call_history, store_inner, RedisDB.set,
      appendInputs, appendOutputs, hinc, hbind, hrp1, hrp2]
  rw [hmain]
  refine ⟨rfl, rfl, rfl, rfl, ?_, ?_, ?_, ?_⟩
  · refine counterFound_of_find_eq (counterFound_write st.db kN) ?_
    rw [find?_write_other _ _ _ _ _ store_ne_outputs,
      find?_write_other _ _ _ _ _ (uuid_ne_store hu).symm,
      find?_write_other _ _ _ _ _ store_ne_inputs]
  · refine HistInv_of_find_eq
      (HistInv_write (st.db.write "Cache.store"
        (.str (utf8Encode (intRepr ((kN : Int) + 1)))) none)
        (lin ++ [utf8Encode (pyStrTuple a)])) ?_
    rw [find?_write_other _ _ _ _ _ inputs_ne_outputs,
      find?_write_other _ _ _ _ _ (uuid_ne_inputs hu).symm]
  · exact HistInv_write _ _
  · intro t
    rw [RedisDB.get, RedisDB.lookupLive]
    rw [find?_write_other _ _ _ _ _ (uuid_ne_outputs hu), find?_write_self]

set_option maxHeartbeats 1000000 in
/-- Any invocation of the decorated `Cache.store` — succeeding or not —
first advances the counter by one (the `INCR` precedes the wrapped call and
is unconditional); the uuid stream is untouched. -/
theorem store_counter_step (a : List PyValue) (kw : List (String × PyValue))
    (st : CacheState) (kN : Nat)
    (hc : counterFound st.db "Cache.store" kN)
    (hu : (st.uuidAt st.tick).data.length = 36) :
    counterFound (Cache.store a kw st).1.db "Cache.store" (kN + 1) ∧
    (Cache.store a kw st).1.uuidAt = st.uuidAt := by
  have hinc := counterFound_incr st.now hc
  have hcC : counterFound (st.db.write "Cache.store"
      (.str (utf8Encode (intRepr ((kN : Int) + 1)))) none) "Cache.store" (kN + 1) :=
    counterFound_write st.db kN
  simp only [Cache.store, count_calls, call_history, store_inner, RedisDB.set,
    appendInputs, appendOutputs, hinc]
  cases hr1 : (st.db.write "Cache.store"
      (.str (utf8Encode (intRepr ((kN : Int) + 1)))) none).rpush st.now "Cache.store:inputs"
        (utf8Encode (pyStrTuple a)) with
  | error e =>
    simp only [hr1]
    exact ⟨hcC, trivial⟩
  | ok db1 =>
    simp only [hr1]
    have hc1 : counterFound db1 "Cache.store" (kN + 1) :=
      counterFound_of_find_eq hcC (rpush_ok_find_other hr1 store_ne_inputs)
    cases hb : bindStoreArgs a kw with
    | error e =>
      simp only [hb]
      exact ⟨hc1, trivial⟩
    | ok v =>
      simp only [hb]
      have hcS : counterFound (db1.write (st.uuidAt st.tick) (.str (encodeValue v)) none)
          "Cache.store" (kN + 1) :=
        counterFound_of_find_eq hc1 (find?_write_other _ _ _ _ _ (uuid_ne_store hu).symm)
      cases hr2 : (db1.write (st.uuidAt st.tick) (.str (encodeValue v)) none).rpush st.now
          "Cache.store:outputs" (encodeValue (.str (st.uuidAt st.tick))) with
      | error e =>
        simp only [hr2]
        exact ⟨hcS, trivial⟩
      | ok db3 =>
        simp only [hr2]
        exact ⟨counterFound_of_find_eq hcS (rpush_ok_find_other hr2 store_ne_outputs), trivial⟩

/-- One timed call after another: `runCalls` threads the state through a
sequence of calls (each with its own clock reading), collecting results. -/
def runCalls (m : Method) : List (Nat × List PyValue × List (String × PyValue)) →
    CacheState → CacheState × List (Except PyErr PyValue)
  | [], s => (s, [])
  | c :: cs, s =>
    let r1 := m c.2.1 c.2.2 { s with now := c.1 }
    let rest := runCalls m cs r1.1
    (rest.1, r1.2 :: rest.2)

theorem runCalls_counter (calls : List (Nat × List PyValue × List (String × PyValue))) :
    ∀ (s : CacheState) (kN : Nat),
      counterFound s.db "Cache.store" kN →
      (∀ i, (s.uuidAt i).data.length = 36) →
      counterFound (runCalls Cache.store calls s).1.db "Cache.store" (kN + calls.length) ∧
      (runCalls Cache.store calls s).1.uuidAt = s.uuidAt := by
  induction calls with
  | nil =>
    intro s kN hc _
    exact ⟨by simpa [runCalls] using hc, rfl⟩
  | cons c cs ih =>
    intro s kN hc hu
    have hc' : counterFound ({ s with now := c.1 } : CacheState).db "Cache.store" kN := hc
    have hu' : (({ s with now := c.1 } : CacheState).uuidAt
        ({ s with now := c.1 } : CacheState).tick).data.length = 36 := hu s.tick
    obtain ⟨hc1, huuid1⟩ := store_counter_step c.2.1 c.2.2 { s with now := c.1 } kN hc' hu'
    have hu1 : ∀ i, ((Cache.store c.2.1 c.2.2 { s with now := c.1 }).1.uuidAt i).data.length
        = 36 := by
      rw [huuid1]
      exact hu
    obtain ⟨hc2, huuid2⟩ :=
      ih (Cache.store c.2.1 c.2.2 { s with now := c.1 }).1 (kN + 1) hc1 hu1
    constructor
    · show counterFound
        (runCalls Cache.store cs (Cache.store c.2.1 c.2.2 { s with now := c.1 }).1).1.db
        "Cache.store" (kN + (c :: cs).length)
      have harith : kN + (c :: cs).length = kN + 1 + cs.length := by
        simp only [List.length_cons]
        omega
      rw [harith]
      exact hc2
    · show (runCalls Cache.store cs (Cache.store c.2.1 c.2.2 { s with now := c.1 }).1).1.uuidAt
        = s.uuidAt
      rw [huuid2, huuid1]

/-- A sequence of single-positional-argument calls to `Cache.store` from a
state whose instrumentation keys hold `kN`, `lin`, `lout`: every call
completes and returns its fresh uuid key; counter and history lists grow in
lockstep and stay positionally aligned. -/
theorem runCalls_store (calls : List (Nat × PyValue)) :
    ∀ (s : CacheState) (kN : Nat) (lin lout : List Bytes),
      counterFound s.db "Cache.store" kN →
      HistInv s.db "Cache.store:inputs" lin →
      HistInv s.db "Cache.store:outputs" lout →
      (∀ i, (s.uuidAt i).data.length = 36) →
      counterFound
        (runCalls Cache.store
          (calls.map (fun c => (c.1, [c.2], ([] : List (String × PyValue))))) s).1.db
        "Cache.store" (kN + calls.length) ∧
      HistInv
        (runCalls Cache.store
          (calls.map (fun c => (c.1, [c.2], ([] : List (String × PyValue))))) s).1.db
        "Cache.store:inputs" (lin ++ calls.map (fun c => utf8Encode (pyStrTuple [c.2]))) ∧
      HistInv
        (runCalls Cache.store
          (calls.map (fun c => (c.1, [c.2], ([] : List (String × PyValue))))) s).1.db
        "Cache.store:outputs"
        (lout ++ (List.range calls.length).map
          (fun i => encodeValue (.str (s.uuidAt (s.tick + i))))) ∧
      (runCalls Cache.store
          (calls.map (fun c => (c.1, [c.2], ([] : List (String × PyValue))))) s).2 =
        (List.range calls.length).map (fun i => .ok (.str (s.uuidAt (s.tick + i)))) := by
  induction calls with
  | nil =>
    intro s kN lin lout hc hi ho _
    refine ⟨by simpa [runCalls] using hc, by simpa [runCalls] using hi,
      by simpa [runCalls] using ho, by simp [runCalls]⟩
  | cons c cs ih =>
    intro s kN lin lout hc hi ho hu
    have hbind : bindStoreArgs [c.2] [] = .ok c.2 := rfl
    obtain ⟨hret, huuidAt, htick, hnow, hc1, hi1, ho1, _⟩ :=
      store_step [c.2] [] c.2 { s with now := c.1 } kN lin lout hbind hc hi ho (hu s.tick)
    set s1 : CacheState := (Cache.store [c.2] [] { s with now := c.1 }).1 with hs1
    have h1 : s1.uuidAt = s.uuidAt := huuidAt
    have h2 : s1.tick = s.tick + 1 := htick
    have hu1 : ∀ i, (s1.uuidAt i).data.length = 36 := by
      rw [h1]
      exact hu
    obtain ⟨hc2, hi2, ho2, hres2⟩ :=
      ih s1 (kN + 1) (lin ++ [utf8Encode (pyStrTuple [c.2])])
        (lout ++ [encodeValue (.str (s.uuidAt s.tick))]) hc1 hi1 ho1 hu1
    have hrununfold :
        runCalls Cache.store
          (((c :: cs)).map (fun x => (x.1, [x.2], ([] : List (String × PyValue))))) s =
        ((runCalls Cache.store
            (cs.map (fun x => (x.1, [x.2], ([] : List (String × PyValue))))) s1).1,
          (Cache.store [c.2] [] { s with now := c.1 }).2 ::
          (runCalls Cache.store
            (cs.map (fun x => (x.1, [x.2], ([] : List (String × PyValue))))) s1).2) := by
      simp only [List.map_cons, runCalls, hs1]
    rw [hrununfold]
    have hlistO : (List.range (c :: cs).length).map
          (fun i => encodeValue (PyValue.str (s.uuidAt (s.tick + i)))) =
        encodeValue (PyValue.str (s.uuidAt s.tick)) ::
          (List.range cs.length).map
            (fun i => encodeValue (PyValue.str (s1.uuidAt (s1.tick + i)))) := by
      rw [List.length_cons, List.range_succ_eq_map, List.map_cons, List.map_map]
      congr 1
      apply List.map_congr_left
      intro i _
      simp only [Function.comp_apply, h1, h2]
      have h3 : s.tick + Nat.succ i = s.tick + 1 + i := by omega
      rw [h3]
    have hlistR : (List.range (c :: cs).length).map
          (fun i => (Except.ok (PyValue.str (s.uuidAt (s.tick + i))) : Except PyErr PyValue)) =
        Except.ok (PyValue.str (s.uuidAt s.tick)) ::
          (List.range cs.length).map
            (fun i => Except.ok (PyValue.str (s1.uuidAt (s1.tick + i)))) := by
      rw [List.length_cons, List.range_succ_eq_map, List.map_cons, List.map_map]
      congr 1
      apply List.map_congr_left
      intro i _
      simp only [Function.comp_apply, h1, h2]
      have h3 : s.tick + Nat.succ i = s.tick + 1 + i := by omega
      rw [h3]
    refine ⟨?_, ?_, ?_, ?_⟩
    · have harith : kN + (c :: cs).length = kN + 1 + cs.length := by
        simp only [List.length_cons]
        omega
      rw [harith]
      exact hc2
    · have happ : lin ++ (c :: cs).map (fun x => utf8Encode (pyStrTuple [x.2])) =
          (lin ++ [utf8Encode (pyStrTuple [c.2])]) ++
            cs.map (fun x => utf8Encode (pyStrTuple [x.2])) := by
        simp [List.append_assoc]
      rw [happ]
      exact hi2
    · have happ : lout ++ (List.range (c :: cs).length).map
            (fun i => encodeValue (PyValue.str (s.uuidAt (s.tick + i)))) =
          (lout ++ [encodeValue (PyValue.str (s.uuidAt s.tick))]) ++
            (List.range cs.length).map
              (fun i => encodeValue (PyValue.str (s1.uuidAt (s1.tick + i)))) := by
        rw [hlistO, List.append_assoc]
        rfl
      rw [happ]
      exact ho2
    · show (Cache.store [c.2] [] { s with now := c.1 }).2 ::
          (runCalls Cache.store
            (cs.map (fun x => (x.1, [x.2], ([] : List (String × PyValue))))) s1).2 = _
      rw [hret, hres2, hlistR]

/-! ### Remaining statement helpers -/

/-- The byte-string value a counter reading `n` presents: absent for `0`,
else the decimal text (what `INCR` leaves behind after `n` increments). -/
def counterBytes (n : Nat) : Option Bytes :=
  if n = 0 then none else some (utf8Encode (intRepr (n : Int)))

/-- The decode function matching stored floats: parse the repr text back
(Python `float`); under the repr-string modelling of floats this is UTF-8
decoding. -/
def floatFn (b : Bytes) : Except PyErr PyValue :=
  match utf8Decode b with
  | some s => .ok (.float ⟨s⟩)
  | none => .error .unicodeDecodeError

/-- The appropriate decode for each stored type: UTF-8 text for `str`
(`get_str`), none (raw bytes) for `bytes`, `int()` for `int` (`get_int`),
float parsing for `float`. -/
def decodeFnFor : PyValue → Option (Bytes → Except PyErr PyValue)
  | .str _ => some strFn
  | .bytes _ => none
  | .int _ => some intFn
  | .float _ => some floatFn

theorem uuid36 : ("00000000-0000-4000-8000-000000000000" : String).data.length = 36 := by
  decide

theorem string_eq_of_data {a b : String} (h : a.data = b.data) : a = b := by
  cases a
  cases b
  exact congrArg String.mk h

theorem data_append (a b : String) : (a ++ b).data = a.data ++ b.data := rfl

theorem header_zero (name : String) :
    name ++ " was called " ++ intRepr 0 ++ " times:" = name ++ " was called 0 times:" := by
  apply string_eq_of_data
  simp only [data_append, List.append_assoc]
  congr 1

instance {ε α : Type} [DecidableEq ε] [DecidableEq α] : DecidableEq (Except ε α) :=
  fun x y =>
    match x, y with
    | .ok a, .ok b =>
      if h : a = b then .isTrue (by rw [h]) else .isFalse (by simp [h])
    | .error a, .error b =>
      if h : a = b then .isTrue (by rw [h]) else .isFalse (by simp [h])
    | .ok _, .error _ => .isFalse (by simp)
    | .error _, .ok _ => .isFalse (by simp)

/-! ### Claim theorems -/

/-- C6: `Cache.get` on an absent key returns `None` and never applies the
decode function (`None` comes back even when the decode function always
raises, and without the function being applied at all); on a key holding
raw bytes `b` it returns exactly `fn b` (or the raw bytes when no decode
function is supplied). -/
theorem claim_C6_get_semantics (db : RedisDB) (now : Nat) (key : String) :
    (db.lookupLive now key = none →
      (∀ fn, Cache.get db now key (some fn) = .ok none) ∧
      Cache.get db now key none = .ok none) ∧
    (∀ b, db.lookupLive now key = some (.str b) →
      (∀ fn, Cache.get db now key (some fn) = (fn b).map some) ∧
      Cache.get db now key none = .ok (some (.bytes b))) := by
  constructor
  · intro habs
    constructor
    · intro fn
      rw [Cache.get, RedisDB.get]
      simp only [habs]
    · rw [Cache.get, RedisDB.get]
      simp only [habs]
  · intro b hb
    constructor
    · intro fn
      rw [Cache.get, RedisDB.get]
      simp only [hb]
    · rw [Cache.get, RedisDB.get]
      simp only [hb]

/-- C6 witness at concrete inputs: an absent key with an always-raising
decode function still returns `None`; a present key has the decode function
applied to the raw bytes. -/
theorem claim_C6_witness :
    Cache.get emptyDB 5 "k" (some (fun _ => .error (.valueError "boom"))) = .ok none ∧
    Cache.get (emptyDB.write "k" (.str [52, 50]) none) 5 "k"
      (some (fun b => .ok (.bytes (b ++ b)))) = .ok (some (.bytes [52, 50, 52, 50])) := by
  constructor
  · exact ((claim_C6_get_semantics emptyDB 5 "k").1 rfl).1 (fun _ => .error (.valueError "boom"))
  · exact ((claim_C6_get_semantics (emptyDB.write "k" (.str [52, 50]) none) 5 "k").2 [52, 50]
      (by decide)).1 (fun b => .ok (.bytes (b ++ b)))

/-- C7: `Cache.get_int` on a key holding the bytes of `"42"` returns the
integer `42`; on a key holding the bytes of `"abc"` the `int()` decode
failure propagates to the caller as a raised `ValueError` (the `.error`
result), not caught anywhere in `Cache.get`/`Cache.get_int`. -/
theorem claim_C7_get_int (db : RedisDB) (now : Nat) (key : String) :
    (db.lookupLive now key = some (.str (utf8Encode "42")) →
      Cache.get_int db now key = .ok (some (.int 42))) ∧
    (db.lookupLive now key = some (.str (utf8Encode "abc")) →
      Cache.get_int db now key = .error (.valueError "invalid literal for int with base 10")) := by
  constructor
  · intro h
    rw [Cache.get_int, Cache.get, RedisDB.get]
    simp only [h]
    decide
  · intro h
    rw [Cache.get_int, Cache.get, RedisDB.get]
    simp only [h]
    decide

/-- C7 witness: both behaviours at a concrete store. -/
theorem claim_C7_witness :
    Cache.get_int (emptyDB.write "k" (.str (utf8Encode "42")) none) 0 "k" =
      .ok (some (.int 42)) ∧
    Cache.get_int (emptyDB.write "j" (.str (utf8Encode "abc")) none) 0 "j" =
      .error (.valueError "invalid literal for int with base 10") := by
  constructor
  · exact (claim_C7_get_int (emptyDB.write "k" (.str (utf8Encode "42")) none) 0 "k").1
      (by decide)
  · exact (claim_C7_get_int (emptyDB.write "j" (.str (utf8Encode "abc")) none) 0 "j").2
      (by decide)

/-- C9: constructing a `Cache` flushes the entire database: whatever the
shared store held before, after `Cache.__init__` every key reads as absent,
`Cache.get` returns `None` for every key and decode function, and `replay`
reports zero calls with an empty transcript for every operation name. -/
theorem claim_C9_init_flush (db : RedisDB) :
    Cache.init db = emptyDB ∧
    (∀ now key, (Cache.init db).lookupLive now key = none) ∧
    (∀ now key fn, Cache.get (Cache.init db) now key fn = .ok none) ∧
    (∀ name now, replay name now (Cache.init db) = .ok [name ++ " was called 0 times:"]) := by
  refine ⟨rfl, fun now key => rfl, fun now key fn => ?_, fun name now => ?_⟩
  · cases fn <;> rfl
  · have h : replay name now (Cache.init db) =
        .ok [name ++ " was called " ++ intRepr 0 ++ " times:"] := rfl
    rw [h, header_zero]

/-- C8: the module never binds `redis_client` and never imports `requests`,
so every `get_page` call raises `NameError` while resolving `redis_client`
in the `count_access` wrapper — before any counter increment, cache lookup
or fetch: the state (database and fetch log) is returned untouched. -/
theorem claim_C8_name_resolution :
    ("redis_client" ∉ moduleGlobals) ∧ ("requests" ∉ moduleGlobals) ∧
    ∀ url (s : PageState), get_page url s = (s, .error (.nameError "redis_client")) := by
  refine ⟨by decide, by decide, fun url s => rfl⟩

/-- C5 (failing input): calling `get_page` on a fresh state raises
`NameError` for `redis_client`; no fetch happens, nothing is cached and no
access counter is set — the first call does not behave as the page-cache
contract describes. -/
theorem claim_C5_get_page_failing :
    get_page "http://example.com"
        ⟨emptyDB, 0, fun _ => "<html>ok</html>", []⟩ =
      (⟨emptyDB, 0, fun _ => "<html>ok</html>", []⟩, .error (.nameError "redis_client")) ∧
    emptyDB.lookupLive 0 "count:http://example.com" = none ∧
    emptyDB.lookupLive 0 "cache:http://example.com" = none := by
  exact ⟨rfl, rfl, rfl⟩

/-- C1: storing any supported value `v` returns a fresh key under which the
store holds exactly the encoded bytes of `v`; `Cache.get` at that key
yields those raw bytes, and `Cache.get` with the type-appropriate decode
function returns a value equal to `v`. -/
theorem claim_C1_store_get_roundtrip (v : PyValue) (st : CacheState) (kN : Nat)
    (lin lout : List Bytes)
    (hc : counterFound st.db "Cache.store" kN)
    (hi : HistInv st.db "Cache.store:inputs" lin)
    (ho : HistInv st.db "Cache.store:outputs" lout)
    (hu : (st.uuidAt st.tick).data.length = 36) :
    (Cache.store [v] [] st).2 = .ok (.str (st.uuidAt st.tick)) ∧
    (∀ t, (Cache.store [v] [] st).1.db.get t (st.uuidAt st.tick) =
      .ok (some (encodeValue v))) ∧
    (∀ t, Cache.get (Cache.store [v] [] st).1.db t (st.uuidAt st.tick) (decodeFnFor v) =
      .ok (some v)) := by
  obtain ⟨hret, _, _, _, _, _, _, hget⟩ :=
    store_step [v] [] v st kN lin lout rfl hc hi ho hu
  refine ⟨hret, hget, fun t => ?_⟩
  rw [Cache.get]
  simp only [hget t]
  cases v with
  | str s =>
    simp only [decodeFnFor, strFn, encodeValue, utf8Decode_utf8Encode]
    rfl
  | bytes b => rfl
  | int n =>
    simp only [decodeFnFor, intFn, encodeValue, pyParseIntBytes_intRepr]
    rfl
  | float f =>
    simp only [decodeFnFor, floatFn, encodeValue, utf8Decode_utf8Encode]
    rfl

/-- C1 witness: storing the integer `7` from a flushed store and reading it
back with the integer decode gives `7`. -/
theorem claim_C1_witness :
    Cache.get
      (Cache.store [.int 7] []
        ⟨emptyDB, 0, fun _ => "00000000-0000-4000-8000-000000000000", 0⟩).1.db 5
      "00000000-0000-4000-8000-000000000000" (decodeFnFor (.int 7)) =
      .ok (some (.int 7)) :=
  (claim_C1_store_get_roundtrip (.int 7)
    ⟨emptyDB, 0, fun _ => "00000000-0000-4000-8000-000000000000", 0⟩ 0 [] []
    (counterFound_empty _) (HistInv_empty _) (HistInv_empty _) (by decide)).2.2 5

/-- C2: after `N` invocations of the decorated `Cache.store` — whether or
not the wrapped operation completes — the counter at `"Cache.store"` reads
`N`; moreover `count_calls` performs its `INCR` before invoking the wrapped
method, and returns without invoking it when the `INCR` itself fails. -/
theorem claim_C2_count_calls (calls : List (Nat × List PyValue × List (String × PyValue)))
    (s : CacheState)
    (hfresh : ∀ t, s.db.lookupLive t "Cache.store" = none)
    (huuid : ∀ i, (s.uuidAt i).data.length = 36) :
    (∀ t, (runCalls Cache.store calls s).1.db.get t "Cache.store" =
      .ok (counterBytes calls.length)) ∧
    (∀ (name : String) (m : Method) (a : List PyValue) (kw : List (String × PyValue))
        (st : CacheState) (db2 : RedisDB) (n : Int),
      st.db.incr st.now name = .ok (db2, n) →
      count_calls name m a kw st = m a kw { st with db := db2 }) ∧
    (∀ (name : String) (m : Method) (a : List PyValue) (kw : List (String × PyValue))
        (st : CacheState) (e : PyErr),
      st.db.incr st.now name = .error e →
      count_calls name m a kw st = (st, .error e)) := by
  refine ⟨?_, ?_, ?_⟩
  · intro t
    have h0 : counterFound s.db "Cache.store" 0 := Or.inl ⟨rfl, hfresh⟩
    obtain ⟨hcN, _⟩ := runCalls_counter calls s 0 h0 huuid
    rw [Nat.zero_add] at hcN
    rw [counterFound_get hcN t]
    rfl
  · intro name m a kw st db2 n h
    rw [count_calls]
    simp only [h]
  · intro name m a kw st e h
    rw [count_calls]
    simp only [h]

/-- C2 witness: two invocations from a flushed store — the second one fails
(bad keyword argument) yet is still counted — leave the counter at `2`. -/
theorem claim_C2_witness :
    (runCalls Cache.store [(0, [.int 5], []), (1, [.str "x"], [("bad", .int 1)])]
      ⟨emptyDB, 0, fun _ => "00000000-0000-4000-8000-000000000000", 0⟩).1.db.get 7
      "Cache.store" = .ok (counterBytes 2) :=
  (claim_C2_count_calls [(0, [.int 5], []), (1, [.str "x"], [("bad", .int 1)])]
    ⟨emptyDB, 0, fun _ => "00000000-0000-4000-8000-000000000000", 0⟩
    (fun _ => rfl) (fun _ => uuid36)).1 7

/-- C3: after `N` completed invocations of the decorated `Cache.store`
(fresh store, one positional argument each), the `:inputs` and `:outputs`
lists both have length `N`; entry `i` of `:outputs` is exactly the encoded
form of the key that invocation `i` returned, in call order. -/
theorem claim_C3_history_alignment (calls : List (Nat × PyValue)) (s : CacheState)
    (hdb : s.db = emptyDB)
    (huuid : ∀ i, (s.uuidAt i).data.length = 36) :
    (∀ t, (runCalls Cache.store
        (calls.map (fun c => (c.1, [c.2], ([] : List (String × PyValue))))) s).1.db.lrangeAll
        t "Cache.store:inputs" =
      .ok (calls.map (fun c => utf8Encode (pyStrTuple [c.2])))) ∧
    (∀ t, (runCalls Cache.store
        (calls.map (fun c => (c.1, [c.2], ([] : List (String × PyValue))))) s).1.db.lrangeAll
        t "Cache.store:outputs" =
      .ok ((List.range calls.length).map
        (fun i => encodeValue (.str (s.uuidAt (s.tick + i)))))) ∧
    (calls.map (fun c => utf8Encode (pyStrTuple [c.2]))).length = calls.length ∧
    ((List.range calls.length).map
      (fun i => encodeValue (.str (s.uuidAt (s.tick + i))))).length = calls.length ∧
    (runCalls Cache.store
        (calls.map (fun c => (c.1, [c.2], ([] : List (String × PyValue))))) s).2 =
      (List.range calls.length).map (fun i => .ok (.str (s.uuidAt (s.tick + i)))) ∧
    (∀ i, i < calls.length →
      ((List.range calls.length).map
        (fun j => encodeValue (.str (s.uuidAt (s.tick + j)))))[i]? =
        some (encodeValue (.str (s.uuidAt (s.tick + i))))) := by
  have hc : counterFound s.db "Cache.store" 0 := by
    rw [hdb]
    exact counterFound_empty _
  have hi : HistInv s.db "Cache.store:inputs" [] := by
    rw [hdb]
    exact HistInv_empty _
  have ho : HistInv s.db "Cache.store:outputs" [] := by
    rw [hdb]
    exact HistInv_empty _
  obtain ⟨_, hin, hout, hres⟩ := runCalls_store calls s 0 [] [] hc hi ho huuid
  refine ⟨fun t => ?_, fun t => ?_, by simp, by simp, hres, fun i hlt => ?_⟩
  · have h := HistInv_lrangeAll hin t
    simpa using h
  · have h := HistInv_lrangeAll hout t
    simpa using h
  · simp [List.getElem?_map, List.getElem?_range, hlt]

/-- C3 witness: two completed `store` calls leave an `:inputs` list holding
the two rendered argument tuples. -/
theorem claim_C3_witness :
    (runCalls Cache.store ([(0, PyValue.int 5), (3, PyValue.str "hi")].map
        (fun c => (c.1, [c.2], ([] : List (String × PyValue)))))
      ⟨emptyDB, 0, fun _ => "00000000-0000-4000-8000-000000000000", 0⟩).1.db.lrangeAll 9
      "Cache.store:inputs" =
      .ok ([(0, PyValue.int 5), (3, PyValue.str "hi")].map
        (fun c => utf8Encode (pyStrTuple [c.2]))) :=
  (claim_C3_history_alignment [(0, PyValue.int 5), (3, PyValue.str "hi")]
    ⟨emptyDB, 0, fun _ => "00000000-0000-4000-8000-000000000000", 0⟩
    rfl (fun _ => uuid36)).1 9

/-- C10: calling the decorated `Cache.store` with the data passed as a
keyword argument records only `str(args)` = `"()"` in `:inputs` — the
keyword argument is omitted from the recorded entry — while the keyword
argument itself is still forwarded to the wrapped method unchanged: the
call succeeds and the value is stored under the returned key. -/
theorem claim_C10_kwargs_omitted (v : PyValue) (st : CacheState) (kN : Nat)
    (lin lout : List Bytes)
    (hc : counterFound st.db "Cache.store" kN)
    (hi : HistInv st.db "Cache.store:inputs" lin)
    (ho : HistInv st.db "Cache.store:outputs" lout)
    (hu : (st.uuidAt st.tick).data.length = 36) :
    (Cache.store [] [("data", v)] st).2 = .ok (.str (st.uuidAt st.tick)) ∧
    (∀ t, (Cache.store [] [("data", v)] st).1.db.get t (st.uuidAt st.tick) =
      .ok (some (encodeValue v))) ∧
    HistInv (Cache.store [] [("data", v)] st).1.db "Cache.store:inputs"
      (lin ++ [utf8Encode "()"]) ∧
    pyStrTuple [] = "()" := by
  obtain ⟨hret, _, _, _, _, hinp, _, hget⟩ :=
    store_step [] [("data", v)] v st kN lin lout rfl hc hi ho hu
  exact ⟨hret, hget, hinp, rfl⟩

/-- C10 witness: a keyword-argument call completes and returns the fresh
key (its recorded `:inputs` entry is the empty tuple text). -/
theorem claim_C10_witness :
    (Cache.store [] [("data", .str "zzz")]
      ⟨emptyDB, 0, fun _ => "00000000-0000-4000-8000-000000000000", 0⟩).2 =
      .ok (.str "00000000-0000-4000-8000-000000000000") :=
  (claim_C10_kwargs_omitted (.str "zzz")
    ⟨emptyDB, 0, fun _ => "00000000-0000-4000-8000-000000000000", 0⟩ 0 [] []
    (counterFound_empty _) (HistInv_empty _) (HistInv_empty _) (by decide)).1

theorem renderLines_encoded (name : String) (ins : List String) : ∀ outs : List String,
    renderLines name (List.zip (ins.map utf8Encode) (outs.map utf8Encode)) =
      .ok ((List.zip ins outs).map (fun p => name ++ "(*" ++ p.1 ++ ") -> " ++ p.2)) := by
  induction ins with
  | nil => intro outs; rfl
  | cons i is ih =>
    intro outs
    cases outs with
    | nil => rfl
    | cons o os =>
      have hz : List.zip ((i :: is).map utf8Encode) ((o :: os).map utf8Encode) =
          (utf8Encode i, utf8Encode o) :: List.zip (is.map utf8Encode) (os.map utf8Encode) := rfl
      have hz2 : List.zip (i :: is) (o :: os) = (i, o) :: List.zip is os := rfl
      rw [hz, hz2]
      simp only [renderLines, utf8Decode_utf8Encode, ih os, List.map_cons]

/-- C4 counterexample: `replay` does NOT render for every store state — a
counter key holding the non-numeric bytes `"abc"` makes `int(call_count)`
raise `ValueError` before anything is rendered. -/
theorem claim_C4_counterexample :
    replay "Cache.store" 0 ⟨[("Cache.store", .str (utf8Encode "abc"), none)]⟩ =
      .error (.valueError "invalid literal for int with base 10") := by
  decide

/-- C4 (amended): for any store state whose counter key reads as absent,
empty or integer text, and whose `:inputs`/`:outputs` keys hold lists of
UTF-8 encoded text, `replay` renders the header line followed by one line
per index-paired entry, pairing truncated to the shorter list (and, by
construction, only reading the store — `replay` performs no write). -/
theorem claim_C4_replay_amended (name : String) (now : Nat) (db : RedisDB)
    (cb : Option Bytes) (cnt : Int) (ins outs : List String)
    (h1 : db.get now name = .ok cb)
    (h2 : replayCount cb = .ok cnt)
    (h3 : db.lrangeAll now (name ++ ":inputs") = .ok (ins.map utf8Encode))
    (h4 : db.lrangeAll now (name ++ ":outputs") = .ok (outs.map utf8Encode)) :
    replay name now db =
      .ok ((name ++ " was called " ++ intRepr cnt ++ " times:") ::
        (List.zip ins outs).map (fun p => name ++ "(*" ++ p.1 ++ ") -> " ++ p.2)) ∧
    ((List.zip ins outs).map (fun p => name ++ "(*" ++ p.1 ++ ") -> " ++ p.2)).length =
      min ins.length outs.length := by
  constructor
  · rw [replay]
    simp only [h1, h2, h3, h4, renderLines_encoded name ins outs]
  · simp [List.length_zip]

/-- C4 witness: a state with two recorded inputs but only one recorded
output renders a header plus a single paired line. -/
theorem claim_C4_witness :
    replay "f" 0 ⟨[("f", .str (utf8Encode "2"), none),
        ("f:inputs", .list [utf8Encode "(1,)", utf8Encode "(2,)"], none),
        ("f:outputs", .list [utf8Encode "key1"], none)]⟩ =
      .ok (("f" ++ " was called " ++ intRepr 2 ++ " times:") ::
        (List.zip ["(1,)", "(2,)"] ["key1"]).map
          (fun p => "f" ++ "(*" ++ p.1 ++ ") -> " ++ p.2)) ∧
    ((List.zip ["(1,)", "(2,)"] ["key1"]).map
      (fun p => "f" ++ "(*" ++ p.1 ++ ") -> " ++ p.2)).length = min 2 1 :=
  claim_C4_replay_amended "f" 0 ⟨[("f", .str (utf8Encode "2"), none),
      ("f:inputs", .list [utf8Encode "(1,)", utf8Encode "(2,)"], none),
      ("f:outputs", .list [utf8Encode "key1"], none)]⟩
    (some (utf8Encode "2")) 2 ["(1,)", "(2,)"] ["key1"]
    (by decide) (by decide) (by decide) (by decide)

end RedisBasic
